import Mathlib

/-!
Shallow embedding of the TTS batch-synthesis repository (src/utils.py,
src/tts_client.py, src/batch_processor.py, src/app.py) and proofs of the
specification claims about it.

Conventions:
* Python `bytes` values are modelled as `List Nat` (one entry per byte).
* Python `str` values are modelled as Lean `String`; slicing `s[:n]` is
  `String.take`, which like Python operates on code points.
* Fallible Python code (functions that may `raise`) is modelled with
  `Except` / `Option`.
-/

namespace TTS

/-! ## utils.py -/

/-- The character class removed by `re.sub(r'[\\/:*?"<>|\n\r\t]', "", text)`
in `utils.safe_filename`. -/
def filenameBadChars : List Char := ['\\', '/', ':', '*', '?', '"', '<', '>', '|', '\n', '\r', '\t']

/-- `re.sub(r'[\\/:*?"<>|\n\r\t]', "", text)`: delete every occurrence of the
filesystem-unsafe characters. -/
def removeBadChars (text : String) : String :=
  ⟨text.data.filter (fun c => !filenameBadChars.contains c)⟩

/-- Characters removed by Python's `str.strip()` with no argument
(ASCII whitespace; the sources never reach the non-ASCII whitespace cases). -/
def isPySpace (c : Char) : Bool :=
  c = ' ' || c = '\t' || c = '\n' || c = '\r' || c = '\x0b' || c = '\x0c'

/-- Python `str.strip()`: drop leading and trailing whitespace. -/
def pyStrip (s : String) : String :=
  ⟨((s.data.dropWhile isPySpace).reverse.dropWhile isPySpace).reverse⟩

/-- Python `"{:03d}".format n` for a natural number: decimal digits padded on
the left with zeros to width 3 (wider numbers are printed in full). -/
def pad3 (n : Nat) : String :=
  let s := toString n
  ⟨List.replicate (3 - s.length) '0'⟩ ++ s

/-- `utils.safe_filename`:
```
clean = re.sub(r'[\\/:*?"<>|\n\r\t]', "", text)
clean = clean.strip()[:20]
return f"{index + 1:03d}_{clean}.mp3"
``` -/
def safe_filename (text : String) (index : Nat) : String :=
  let clean := removeBadChars text
  let clean : String := ⟨(pyStrip clean).data.take 20⟩
  pad3 (index + 1) ++ "_" ++ clean ++ ".mp3"

/-! ## tts_client.py -/

/-- `TTSError(message, status_code=None, response_text=None)`; `str(e)` is
`message`. -/
structure TTSError where
  message : String
  status_code : Option Int := none
  response_text : Option String := none
  deriving DecidableEq, Repr

/-- Value of one base64 alphabet character (`A-Z`, `a-z`, `0-9`, `+`, `/`). -/
def b64Val (c : Char) : Option Nat :=
  if 'A' ≤ c ∧ c ≤ 'Z' then some (c.toNat - 'A'.toNat)
  else if 'a' ≤ c ∧ c ≤ 'z' then some (c.toNat - 'a'.toNat + 26)
  else if '0' ≤ c ∧ c ≤ '9' then some (c.toNat - '0'.toNat + 52)
  else if c = '+' then some 62
  else if c = '/' then some 63
  else none

/-- Decode base64 text four characters at a time, honouring `=` padding in the
final quad; `none` models `binascii.Error`. -/
def b64DecodeGroups : List Char → Option (List Nat)
  | [] => some []
  | a :: b :: c :: d :: rest =>
    match b64Val a, b64Val b with
    | some va, some vb =>
      if c = '=' ∧ d = '=' ∧ rest = [] then
        some [va * 4 + vb / 16]
      else
        match b64Val c with
        | some vc =>
          if d = '=' ∧ rest = [] then
            some [va * 4 + vb / 16, (vb % 16) * 16 + vc / 4]
          else
            match b64Val d with
            | some vd =>
              (b64DecodeGroups rest).map
                (fun tail =>
                  (va * 4 + vb / 16) :: ((vb % 16) * 16 + vc / 4) :: ((vc % 4) * 64 + vd) :: tail)
            | none => none
        | none => none
    | _, _ => none
  | _ => none

/-- `base64.b64decode` on canonical base64 text (the only shape the remote
protocol emits); `none` models a raised `binascii.Error`.  Python additionally
discards stray non-alphabet characters before decoding, a permissiveness no
claim exercises; text whose length is not a multiple of four raises in both
(e.g. `b64decode("AA")` raises `Incorrect padding`). -/
def b64decode (s : String) : Option (List Nat) :=
  b64DecodeGroups s.data

/-- Lower-case hex digit, as produced by `json.dumps` escapes. -/
def hexDigit (n : Nat) : Char :=
  if n < 10 then Char.ofNat ('0'.toNat + n) else Char.ofNat ('a'.toNat + (n - 10))

/-- `json.dumps` escaping of one character (default `ensure_ascii=True`):
printable ASCII other than quote and backslash is literal, the short escapes
for the usual controls, `\u00xx` for other controls, `\uxxxx` for non-ASCII
(surrogate pairs above U+FFFF). -/
def jsonEscapeChar (c : Char) : List Char :=
  if c = '"' then ['\\', '"']
  else if c = '\\' then ['\\', '\\']
  else if c = '\n' then ['\\', 'n']
  else if c = '\r' then ['\\', 'r']
  else if c = '\t' then ['\\', 't']
  else if c = '\x08' then ['\\', 'b']
  else if c = '\x0c' then ['\\', 'f']
  else if 0x20 ≤ c.toNat ∧ c.toNat < 0x7f then [c]
  else if c.toNat < 0x10000 then
    ['\\', 'u', hexDigit (c.toNat / 4096 % 16), hexDigit (c.toNat / 256 % 16),
     hexDigit (c.toNat / 16 % 16), hexDigit (c.toNat % 16)]
  else
    let v := c.toNat - 0x10000
    let hi := 0xd800 + v / 1024
    let lo := 0xdc00 + v % 1024
    ['\\', 'u', hexDigit (hi / 4096 % 16), hexDigit (hi / 256 % 16),
     hexDigit (hi / 16 % 16), hexDigit (hi % 16),
     '\\', 'u', hexDigit (lo / 4096 % 16), hexDigit (lo / 256 % 16),
     hexDigit (lo / 16 % 16), hexDigit (lo % 16)]

/-- A JSON string literal as `json.dumps` renders it. -/
def jsonStr (s : String) : String :=
  "\"" ++ ⟨(s.data.map jsonEscapeChar).flatten⟩ ++ "\""

/-- The JSON value shapes appearing in the `additions` dict. -/
inductive JVal where
  | str (s : String)
  | arr (xs : List String)
  deriving DecidableEq, Repr

def JVal.dump : JVal → String
  | .str s => jsonStr s
  | .arr xs => "[" ++ String.intercalate ", " (xs.map jsonStr) ++ "]"

/-- `json.dumps` of a dict (insertion order preserved, default separators). -/
def jsonDumpsObj (pairs : List (String × JVal)) : String :=
  "\x7b" ++ String.intercalate ", " (pairs.map (fun p => jsonStr p.1 ++ ": " ++ p.2.dump)) ++ "\x7d"

/-- The `additions` dict built in `synthesize`:
```
additions = {}
if context_texts: additions["context_texts"] = context_texts
if section_id:    additions["section_id"] = section_id
```
Python truthiness: `None`, an empty list and an empty string are all falsy. -/
def additionsDict (context_texts : Option (List String)) (section_id : Option String) :
    List (String × JVal) :=
  (match context_texts with
   | some l => if l ≠ [] then [("context_texts", JVal.arr l)] else []
   | none => []) ++
  (match section_id with
   | some s => if s ≠ "" then [("section_id", JVal.str s)] else []
   | none => [])

structure AudioParams where
  format : String
  sample_rate : Nat
  deriving DecidableEq, Repr

structure ReqParams where
  text : String
  speaker : String
  audio_params : AudioParams
  additions : Option String := none
  deriving DecidableEq, Repr

/-- The request body of `synthesize` (the JSON key `namespace` is a Lean
keyword, hence the field name `nspace`). -/
structure Payload where
  nspace : String
  req_params : ReqParams
  deriving DecidableEq, Repr

/-- Request-body construction in `synthesize`: the fixed payload dict, then
`payload["req_params"]["additions"] = json.dumps(additions)` executed only
when the `additions` dict is truthy (non-empty). -/
def buildPayload (text voice_type : String) (context_texts : Option (List String))
    (section_id : Option String) : Payload :=
  let base : ReqParams :=
    { text := text, speaker := voice_type,
      audio_params := { format := "mp3", sample_rate := 24000 } }
  let adds := additionsDict context_texts section_id
  { nspace := "BidirectionalTTS",
    req_params :=
      if adds ≠ [] then { base with additions := some (jsonDumpsObj adds) } else base }

/-- One line of the streamed response body, as seen by the loop over
`response.iter_lines()`:
* `blank` — a falsy (empty) line, skipped by `if not line: continue`;
* `nonJson` — a line on which `json.loads` raises, skipped;
* `json data code message` — a parsed JSON object with its `data` (base64
  string), `code` (integer status) and `message` fields; an absent `message`
  is modelled as `""`, matching the only access `data.get("message", "")`. -/
inductive StreamLine where
  | blank
  | nonJson (raw : String)
  | json (data : Option String) (code : Option Int) (message : String)
  deriving DecidableEq, Repr

/-- The effective status code of a line: `data.get("code", 0)`. -/
def StreamLine.effCode : StreamLine → Int
  | .json _ c _ => c.getD 0
  | _ => 0

/-- The `TTSError` raised when `base64.b64decode` fails inside the loop and is
re-raised by `except Exception as e: raise TTSError(f"解析响应时出错: {e}")`;
the embedded exception text is abstracted to the fixed `binascii` phrase. -/
def parseError : TTSError :=
  { message := "解析响应时出错: Invalid base64-encoded string" }

/-- The `TTSError` raised by the in-loop code check. -/
def apiError (c : Int) (message : String) : TTSError :=
  { message := "API 错误: code=" ++ toString c ++ ", message=" ++ message,
    status_code := some c }

/-- The `data`-field step of one loop iteration: `chunk = data.get("data")`,
and when the chunk is truthy, `audio_data += base64.b64decode(chunk)` (a
decode failure is re-raised as the parse error). -/
def chunkStep (audio : List Nat) (data : Option String) : Except TTSError (List Nat) :=
  match data with
  | some chunk =>
    if chunk ≠ "" then
      match b64decode chunk with
      | some bytes => .ok (audio ++ bytes)
      | none => .error parseError
    else .ok audio
  | none => .ok audio

/-- One iteration of `for line in response.iter_lines()`, acting on the
accumulated `audio_data`: skip blank and non-JSON lines; base64-decode and
append a truthy `data` field; then raise on a code outside `(0, 20000000)`
(the source's trailing `and code` is redundant, `0` being in the tuple). -/
def processLine (audio : List Nat) : StreamLine → Except TTSError (List Nat)
  | .blank => .ok audio
  | .nonJson _ => .ok audio
  | .json data code message =>
    match chunkStep audio data with
    | .error e => .error e
    | .ok audio' =>
      if code.getD 0 ≠ 0 ∧ code.getD 0 ≠ 20000000 then
        .error (apiError (code.getD 0) message)
      else .ok audio'

/-- The whole stream loop, folding `processLine` over the lines; the first
raised `TTSError` aborts the remaining lines. -/
def runLines (audio : List Nat) : List StreamLine → Except TTSError (List Nat)
  | [] => .ok audio
  | l :: ls =>
    match processLine audio l with
    | .ok audio' => runLines audio' ls
    | .error e => .error e

/-- A line is benign for the in-loop code check: its effective `code`
(`data.get("code", 0)`) is `0` or the end sentinel `20000000`. -/
def benignCode (l : StreamLine) : Bool :=
  l.effCode == 0 || l.effCode == 20000000

/-- A `data` field decodes: absent, empty, or valid base64. -/
def dataOkOpt : Option String → Bool
  | some chunk => chunk == "" || (b64decode chunk).isSome
  | none => true

/-- The `data` field of a line decodes: absent, empty, or valid base64. -/
def dataOk (l : StreamLine) : Bool :=
  match l with
  | .json data _ _ => dataOkOpt data
  | _ => true

/-- The decoded audio fragment a `data` field contributes. -/
def dataFragment : Option String → List Nat
  | some chunk => if chunk ≠ "" then (b64decode chunk).getD [] else []
  | none => []

/-- The decoded audio fragment one line contributes (empty for skipped lines
and for absent/empty `data` fields). -/
def lineFragment : StreamLine → List Nat
  | .json data _ _ => dataFragment data
  | _ => []

/-- Concatenation of every line's decoded fragment, in stream order — the
spec's description of the success value of `synthesize`. -/
def streamFragments (lines : List StreamLine) : List Nat :=
  (lines.map lineFragment).flatten

/-- Outcome of `session.post(...)`: either a transport-level exception
(`requests.RequestException`) or a response carrying an HTTP status, the body
text used for diagnostics, and the parsed stream lines. -/
inductive HttpOutcome where
  | netError (msg : String)
  | response (status : Nat) (text : String) (lines : List StreamLine)
  deriving DecidableEq, Repr

/-- `TTSClient.synthesize`, given the outcome the network produced for the
request: a non-200 status fails with the code and a 500-character body snippet
before any line is processed; otherwise the stream loop runs and empty
accumulated audio fails. -/
def synthesize (resp : HttpOutcome) : Except TTSError (List Nat) :=
  match resp with
  | .netError m => .error { message := "网络请求失败: " ++ m }
  | .response status text lines =>
    if status ≠ 200 then
      .error { message := "API 返回错误状态码: " ++ toString status,
               status_code := some (status : Int),
               response_text := some ⟨text.data.take 500⟩ }
    else
      match runLines [] lines with
      | .error e => .error e
      | .ok audio =>
        if audio = [] then .error { message := "API 返回了空的音频数据" }
        else .ok audio

/-! ## batch_processor.py: data model and constructor -/

/-- `TTSTask` dataclass.  `index` is a `Nat`: every constructor site in the
repository (`utils.parse_dataframe`, `utils.parse_text_lines`) assigns
`index=len(tasks)`, a non-negative integer. -/
structure TTSTask where
  index : Nat
  text : String
  voice_type : String
  context_texts : Option (List String) := none
  section_id : Option String := none
  deriving DecidableEq, Repr

/-- `TTSResult` dataclass: `audio` and `error` both default to `None`. -/
structure TTSResult where
  index : Nat
  text : String
  audio : Option (List Nat) := none
  error : Option String := none
  deriving DecidableEq, Repr

/-- `TTSResult.success` property: `self.audio is not None`. -/
def TTSResult.success (r : TTSResult) : Bool :=
  r.audio.isSome

/-- `BatchProcessor.__init__(self, client, max_workers: int = 5)`; the client
object is threaded separately as a function argument in this embedding. -/
structure BatchProcessor where
  max_workers : Nat
  deriving DecidableEq, Repr

/-- Construction of a `BatchProcessor`, modelling the Python default argument:
`none` stands for calling `BatchProcessor(client)` with no `max_workers`
argument, in which case the default `5` from the `__init__` signature is used. -/
def mkBatchProcessor (max_workers : Option Nat) : BatchProcessor :=
  { max_workers := max_workers.getD 5 }

/-- `app.py` line 65: `max_workers = 10`, passed explicitly to
`BatchProcessor(client=..., max_workers=max_workers)`. -/
def app_max_workers : Nat := 10

/-! ## batch_processor.py: `process` -/

/-- What happens when a worker thread runs one task: the Client performs the
HTTP call (whose network-determined outcome is `http resp`), or some other,
non-`TTSError` exception is raised (`raises (str e)`).  A `behavior` function
`TTSTask → TaskExec` plays the role of the external world, fixing the
per-task outcome. -/
inductive TaskExec where
  | http (resp : HttpOutcome)
  | raises (msg : String)
  deriving DecidableEq, Repr

/-- `BatchProcessor.process.run_task`: call `self.client.synthesize` with the
task's fields; catch `TTSError` into `error=str(e)`; catch any other
exception into `error=f"未知错误: {e}"`. -/
def run_task (behavior : TTSTask → TaskExec) (task : TTSTask) : TTSResult :=
  match behavior task with
  | .http resp =>
    match synthesize resp with
    | .ok audio => { index := task.index, text := task.text, audio := some audio }
    | .error e => { index := task.index, text := task.text, error := some e.message }
  | .raises msg => { index := task.index, text := task.text, error := some ("未知错误: " ++ msg) }

/-- The `results: dict[int, TTSResult]` accumulator, as an insertion-ordered
association list with unique keys — exactly a Python dict's observable
state. -/
abbrev ResultDict := List (Nat × TTSResult)

/-- `results[k] = v`: overwrite the existing entry in place, or append a new
key, as a Python dict update does (each update runs under the lock, so
updates are sequential). -/
def dictInsert : ResultDict → Nat → TTSResult → ResultDict
  | [], k, v => [(k, v)]
  | (a, w) :: rest, k, v =>
    if a = k then (k, v) :: rest else (a, w) :: dictInsert rest k v

/-- `results[k]` lookup. -/
def dictLookup (d : ResultDict) (k : Nat) : Option TTSResult :=
  (d.find? (fun p => p.1 == k)).map (·.2)

/-- The dict's key set, in insertion order. -/
def dictKeys (d : ResultDict) : List Nat := d.map (·.1)

/-- The state of `results` after the `as_completed` loop has consumed the
completions in order `order` (the scheduler-chosen permutation of the
submitted tasks): each completion performs `results[result.index] = result`. -/
def buildDict (behavior : TTSTask → TaskExec) (order : List TTSTask) : ResultDict :=
  order.foldl (fun d t => let r := run_task behavior t; dictInsert d r.index r) []

/-- `BatchProcessor.process`, parameterised by the completion order: run the
accumulation loop, then return `[results[i] for i in sorted(results)]`
(`List.insertionSort` models Python's `sorted`; the comprehension's lookup is
total because every key sorted comes from the dict itself, so `filterMap`
drops nothing). -/
def process (behavior : TTSTask → TaskExec) (order : List TTSTask) : List TTSResult :=
  let d := buildDict behavior order
  (List.insertionSort (· ≤ ·) (dictKeys d)).filterMap (dictLookup d)

/-- The sequence of `on_result` callback invocations: once per completed
future, in completion order, with that future's result. -/
def callbackCalls (behavior : TTSTask → TaskExec) (order : List TTSTask) : List TTSResult :=
  order.map (run_task behavior)

/-- The Result the final dict holds at key `k`: the `run_task` result of the
most recently completed task whose index is `k` (first match in the reversed
completion order); the fallback is never reached for keys of the dict. -/
def resAt (behavior : TTSTask → TaskExec) (order : List TTSTask) (k : Nat) : TTSResult :=
  match order.reverse.find? (fun t => t.index == k) with
  | some t => run_task behavior t
  | none => { index := k, text := "" }

/-! ## Helper lemmas: `safe_filename` -/

lemma digitChar_isDigit (m : Nat) (h : m < 10) : (Nat.digitChar m).isDigit := by
  interval_cases m <;> decide

lemma toDigitsCore_mem (f : Nat) :
    ∀ (n : Nat) (acc : List Char), ∀ c ∈ Nat.toDigitsCore 10 f n acc, c ∈ acc ∨ c.isDigit := by
  induction f with
  | zero => intro n acc c hc; exact Or.inl hc
  | succ f ih =>
    intro n acc c hc
    simp only [Nat.toDigitsCore] at hc
    by_cases h0 : n / 10 = 0
    · rw [if_pos h0] at hc
      rcases List.mem_cons.mp hc with h | h
      · exact Or.inr (h ▸ digitChar_isDigit _ (Nat.mod_lt _ (by decide)))
      · exact Or.inl h
    · rw [if_neg h0] at hc
      rcases ih _ _ c hc with h | h
      · rcases List.mem_cons.mp h with h | h
        · exact Or.inr (h ▸ digitChar_isDigit _ (Nat.mod_lt _ (by decide)))
        · exact Or.inl h
      · exact Or.inr h

lemma mem_pad3_isDigit (n : Nat) : ∀ c ∈ (pad3 n).data, c.isDigit := by
  intro c hc
  have hdata : (pad3 n).data = List.replicate (3 - (toString n).length) '0' ++ Nat.toDigits 10 n := rfl
  rw [hdata] at hc
  rcases List.mem_append.mp hc with h | h
  · rw [List.eq_of_mem_replicate h]; decide
  · rcases toDigitsCore_mem _ _ _ c h with h' | h'
    · exact absurd h' (List.not_mem_nil c)
    · exact h'

lemma isDigit_not_bad (c : Char) (h : c.isDigit) : c ∉ filenameBadChars := by
  intro hmem
  fin_cases hmem <;> simp [Char.isDigit] at h

lemma mem_removeBadChars (text : String) (c : Char) (h : c ∈ (removeBadChars text).data) :
    c ∉ filenameBadChars := by
  simp only [removeBadChars, List.mem_filter] at h
  simpa using h.2

lemma mem_pyStrip (s : String) (c : Char) (h : c ∈ (pyStrip s).data) : c ∈ s.data := by
  simp only [pyStrip, List.mem_reverse] at h
  have h1 : c ∈ (s.data.dropWhile isPySpace).reverse := (List.dropWhile_sublist _).subset h
  rw [List.mem_reverse] at h1
  exact (List.dropWhile_sublist _).subset h1

/-! ## Claim theorems -/

/-- C8 counterexample: on text `"Hello, World! This text is long"` and index
`0`, `safe_filename` does not return
`"001_Hello, World! This text is long"[:20] + ".mp3"` (which is
`"001_Hello, World! Th.mp3"`): the code truncates the cleaned text to 20
characters before prefixing the index, yielding
`"001_Hello, World! This t.mp3"`. -/
theorem C8_safe_filename_counterexample :
    safe_filename "Hello, World! This text is long" 0 ≠
      String.mk ("001_Hello, World! This text is long".data.take 20) ++ ".mp3" := by
  decide

/-- C8 (amended): filename generation is deterministic: the zero-padded
3-digit 1-based index, an underscore, the first 20 characters of the text
after removing the filesystem-unsafe characters and trimming surrounding
whitespace, then ".mp3"; no unsafe character remains anywhere in the result;
the concrete example yields `"001_" + text[:20] + ".mp3"`, i.e.
`"001_Hello, World! This t.mp3"`. -/
theorem C8_safe_filename_amended (text : String) (index : Nat) :
    safe_filename text index =
      pad3 (index + 1) ++ "_" ++ String.mk ((pyStrip (removeBadChars text)).data.take 20) ++ ".mp3" ∧
    (∀ c ∈ (safe_filename text index).data, c ∉ filenameBadChars) ∧
    safe_filename "Hello, World! This text is long" 0 = "001_Hello, World! This t.mp3" := by
  refine ⟨rfl, ?_, by decide⟩
  intro c hc
  have hdata : (safe_filename text index).data =
      (pad3 (index + 1)).data ++ '_' ::
        ((pyStrip (removeBadChars text)).data.take 20 ++ ['.', 'm', 'p', '3']) := by
    simp [safe_filename, String.data_append]
  rw [hdata] at hc
  rcases List.mem_append.mp hc with h | h
  · exact isDigit_not_bad c (mem_pad3_isDigit _ c h)
  · rcases List.mem_cons.mp h with h | h
    · subst h; decide
    · rcases List.mem_append.mp h with h | h
      · exact mem_removeBadChars text c (mem_pyStrip _ c ((List.take_sublist _ _).subset h))
      · fin_cases h <;> decide

/-- C8 witness: the amended theorem applied at the claim's concrete input. -/
theorem C8_safe_filename_witness :
    safe_filename "Hello, World! This text is long" 0 = "001_Hello, World! This t.mp3" :=
  (C8_safe_filename_amended "Hello, World! This text is long" 0).2.2

/-- C9 counterexample: constructing the `BatchProcessor` without an explicit
`max_workers` argument yields a pool of 5 workers, not 10 (the `__init__`
default is `max_workers: int = 5`). -/
theorem C9_default_workers_counterexample :
    (mkBatchProcessor none).max_workers = 5 ∧ (mkBatchProcessor none).max_workers ≠ 10 := by
  exact ⟨rfl, by decide⟩

/-- C9 (amended): the Dispatcher's default `max_workers` is 5; the worker-pool
size 10 is not a default but is passed explicitly by the application
(`app.py`: `max_workers = 10`). -/
theorem C9_default_workers_amended :
    (mkBatchProcessor none).max_workers = 5 ∧
    (mkBatchProcessor (some app_max_workers)).max_workers = 10 :=
  ⟨rfl, rfl⟩

/-! ## Helper lemmas: the synthesize stream loop -/

lemma append_ne_empty (a b : String) (h : a ≠ "") : a ++ b ≠ "" := by
  intro hab
  apply h
  have : a.data ++ b.data = [] := congrArg String.data hab
  rcases List.append_eq_nil.mp this with ⟨ha, _⟩
  exact congrArg String.mk ha

lemma chunkStep_error (audio : List Nat) (data : Option String) (e : TTSError)
    (h : chunkStep audio data = .error e) : e = parseError := by
  rcases data with _ | chunk
  · simp [chunkStep] at h
  · simp only [chunkStep] at h
    by_cases hc : chunk ≠ ""
    · rw [if_pos hc] at h
      rcases hdec : b64decode chunk with _ | bytes <;> rw [hdec] at h
      · cases h; rfl
      · cases h
    · rw [if_neg hc] at h
      cases h

lemma chunkStep_ok_append (audio : List Nat) (data : Option String) (audio' : List Nat)
    (h : chunkStep audio data = .ok audio') : audio' = audio ++ dataFragment data := by
  rcases data with _ | chunk
  · cases h; simp [dataFragment]
  · simp only [chunkStep] at h
    by_cases hc : chunk ≠ ""
    · rw [if_pos hc] at h
      rcases hdec : b64decode chunk with _ | bytes <;> rw [hdec] at h
      · cases h
      · cases h; simp [dataFragment, hc, hdec]
    · rw [if_neg hc] at h
      cases h
      simp [dataFragment, if_neg hc]

lemma chunkStep_of_dataOk (audio : List Nat) (data : Option String)
    (h : dataOkOpt data = true) : chunkStep audio data = .ok (audio ++ dataFragment data) := by
  rcases data with _ | chunk
  · simp [chunkStep, dataFragment]
  · simp only [dataOkOpt, Bool.or_eq_true, beq_iff_eq] at h
    by_cases hc : chunk ≠ ""
    · rcases h with h | h
      · exact absurd h hc
      · rcases hdec : b64decode chunk with _ | bytes
        · rw [hdec] at h; cases h
        · simp [chunkStep, if_pos hc, hdec, dataFragment]
    · simp [chunkStep, if_neg hc, dataFragment]

lemma processLine_json_ok (audio : List Nat) (data : Option String) (code : Option Int)
    (m : String) (audio' : List Nat) (hcs : chunkStep audio data = .ok audio') :
    processLine audio (.json data code m) =
      if code.getD 0 ≠ 0 ∧ code.getD 0 ≠ 20000000 then .error (apiError (code.getD 0) m)
      else .ok audio' := by
  simp only [processLine, hcs]

lemma processLine_json_error (audio : List Nat) (data : Option String) (code : Option Int)
    (m : String) (e : TTSError) (hcs : chunkStep audio data = .error e) :
    processLine audio (.json data code m) = .error e := by
  simp only [processLine, hcs]

lemma processLine_error_message (audio : List Nat) (l : StreamLine) (e : TTSError)
    (h : processLine audio l = .error e) : e.message ≠ "" := by
  cases l with
  | blank => simp [processLine] at h
  | nonJson raw => simp [processLine] at h
  | json data code message =>
    rcases hcs : chunkStep audio data with e' | audio'
    · rw [processLine_json_error audio data code message e' hcs] at h
      injection h with he
      have hp := chunkStep_error audio data e' hcs
      rw [← he, hp]
      decide
    · rw [processLine_json_ok audio data code message audio' hcs] at h
      split at h
      · cases h; exact append_ne_empty "API 错误: code=" _ (by decide)
      · cases h

lemma runLines_error_message (lines : List StreamLine) :
    ∀ (audio : List Nat) (e : TTSError), runLines audio lines = .error e → e.message ≠ "" := by
  induction lines with
  | nil => intro audio e h; simp [runLines] at h
  | cons l ls ih =>
    intro audio e h
    simp only [runLines] at h
    rcases hl : processLine audio l with e' | audio'
    · rw [hl] at h; cases h; exact processLine_error_message audio l _ hl
    · rw [hl] at h; exact ih audio' e h

lemma synthesize_error_message (resp : HttpOutcome) (e : TTSError)
    (h : synthesize resp = .error e) : e.message ≠ "" := by
  cases resp with
  | netError m =>
    cases h
    exact append_ne_empty "网络请求失败: " m (by decide)
  | response status text lines =>
    simp only [synthesize] at h
    by_cases hs : status ≠ 200
    · rw [if_pos hs] at h
      cases h
      exact append_ne_empty "API 返回错误状态码: " _ (by decide)
    · rw [if_neg hs] at h
      rcases hr : runLines [] lines with e' | audio
      · rw [hr] at h; cases h; exact runLines_error_message lines [] _ hr
      · rw [hr] at h
        simp only at h
        split at h
        · cases h; decide
        · cases h

lemma processLine_ok_append (audio : List Nat) (l : StreamLine) (audio' : List Nat)
    (h : processLine audio l = .ok audio') : audio' = audio ++ lineFragment l := by
  cases l with
  | blank => cases h; simp [lineFragment]
  | nonJson raw => cases h; simp [lineFragment]
  | json data code message =>
    rcases hcs : chunkStep audio data with e' | audio''
    · rw [processLine_json_error audio data code message e' hcs] at h
      cases h
    · rw [processLine_json_ok audio data code message audio'' hcs] at h
      split at h
      · cases h
      · cases h
        exact chunkStep_ok_append audio data audio' hcs

lemma synthesize_200 (text : String) (lines : List StreamLine) :
    synthesize (.response 200 text lines) =
      match runLines [] lines with
      | .error e => .error e
      | .ok audio =>
        if audio = [] then .error { message := "API 返回了空的音频数据" } else .ok audio := by
  simp [synthesize]

lemma runLines_ok_concat (lines : List StreamLine) :
    ∀ (audio out : List Nat), runLines audio lines = .ok out →
      out = audio ++ streamFragments lines := by
  induction lines with
  | nil =>
    intro audio out h
    cases h
    simp [streamFragments]
  | cons l ls ih =>
    intro audio out h
    simp only [runLines] at h
    rcases hl : processLine audio l with e | audio'
    · rw [hl] at h; cases h
    · rw [hl] at h
      have h1 := ih audio' out h
      have h2 := processLine_ok_append audio l audio' hl
      subst h2
      simp [h1, streamFragments]

lemma processLine_benign_ok (audio : List Nat) (l : StreamLine)
    (hb : benignCode l = true) (hd : dataOk l = true) :
    processLine audio l = .ok (audio ++ lineFragment l) := by
  cases l with
  | blank => simp [processLine, lineFragment]
  | nonJson raw => simp [processLine, lineFragment]
  | json data code message =>
    have hcode : code.getD 0 = 0 ∨ code.getD 0 = 20000000 := by
      simp only [benignCode, StreamLine.effCode, Bool.or_eq_true, beq_iff_eq] at hb
      exact hb
    have hnot : ¬(code.getD 0 ≠ 0 ∧ code.getD 0 ≠ 20000000) := by
      rcases hcode with h | h <;> simp [h]
    have hd' : dataOkOpt data = true := hd
    rw [processLine_json_ok audio data code message (audio ++ dataFragment data)
        (chunkStep_of_dataOk audio data hd'), if_neg hnot]
    rfl

/-! ## Claim theorems for the synthesize stream -/

/-- C2 counterexample: the parsed JSON line with `data` field `"AA"` and no
`code` field has effective code `0`, yet processing it produces an error:
`base64.b64decode("AA")` raises (`Incorrect padding`), re-raised as the
parse-error `TTSError` — so a line whose `code` is absent can produce an
error. -/
theorem C2_code_check_counterexample :
    (StreamLine.json (some "AA") none "").effCode = 0 ∧
    processLine [] (StreamLine.json (some "AA") none "") = .error parseError := by
  exact ⟨rfl, rfl⟩

/-- C2 (amended): a parsed line whose `code` is absent, `0`, or `20000000`
never produces an error, provided its `data` field (when present and
non-empty) is valid base64; for any line whose `code` is any other non-zero
value and whose `data` decodes, `synthesize`'s loop aborts the remaining
stream immediately (whatever lines follow) and raises the `TTSError` carrying
that code and the line's `message` field. -/
theorem C2_code_check_amended :
    (∀ (audio : List Nat) (l : StreamLine), benignCode l = true → dataOk l = true →
       ∃ audio', processLine audio l = .ok audio') ∧
    (∀ (audio : List Nat) (pre post : List StreamLine) (d : Option String) (c : Int) (m : String),
       (∀ l ∈ pre, benignCode l = true ∧ dataOk l = true) →
       c ≠ 0 → c ≠ 20000000 →
       dataOk (.json d (some c) m) = true →
       runLines audio (pre ++ .json d (some c) m :: post) = .error (apiError c m)) := by
  constructor
  · exact fun audio l hb hd => ⟨audio ++ lineFragment l, processLine_benign_ok audio l hb hd⟩
  · intro audio pre post d c m hpre hc0 hc2 hd
    induction pre generalizing audio with
    | nil =>
      simp only [List.nil_append, runLines]
      have hd' : dataOkOpt d = true := hd
      have hbad : processLine audio (.json d (some c) m) = .error (apiError c m) := by
        rw [processLine_json_ok audio d (some c) m _ (chunkStep_of_dataOk audio d hd'),
          if_pos (⟨hc0, hc2⟩ : (some c : Option Int).getD 0 ≠ 0 ∧
            (some c : Option Int).getD 0 ≠ 20000000)]
        rfl
      rw [hbad]
    | cons l ls ih =>
      have hl := hpre l (List.mem_cons_self l ls)
      have hok := processLine_benign_ok audio l hl.1 hl.2
      simp only [List.cons_append, runLines, hok]
      exact ih (audio ++ lineFragment l) (fun l' hl' => hpre l' (List.mem_cons_of_mem l hl'))

/-- C2 witness: a concrete stream — a blank heartbeat, a valid audio line, a
line with error code 55 and message "bad", then a further valid line — aborts
at the error line with the code and message surfaced. -/
theorem C2_code_check_witness :
    runLines [] [StreamLine.blank, .json (some "aGVsbG8=") none "",
        .json none (some 55) "bad", .json (some "aGVsbG8=") none ""] =
      .error (apiError 55 "bad") :=
  C2_code_check_amended.2 [] [.blank, .json (some "aGVsbG8=") none ""]
    [.json (some "aGVsbG8=") none ""] none 55 "bad" (by decide) (by decide) (by decide)
    (by decide)

/-- C3: for every response whose HTTP status is not 200, `synthesize` fails
with the error built before any line is processed (the result does not depend
on the stream lines), exposing the status code and at most 500 characters of
the response body, and returns no audio. -/
theorem C3_non200_fails (status : Nat) (text : String) (lines : List StreamLine)
    (h : status ≠ 200) :
    synthesize (.response status text lines) =
      .error { message := "API 返回错误状态码: " ++ toString status,
               status_code := some (status : Int),
               response_text := some ⟨text.data.take 500⟩ } ∧
    (String.mk (text.data.take 500)).length ≤ 500 ∧
    (∀ audio, synthesize (.response status text lines) ≠ .ok audio) := by
  refine ⟨by simp [synthesize, h], ?_, ?_⟩
  · show (text.data.take 500).length ≤ 500
    simp [List.length_take_le]
  · intro audio hok
    rw [show synthesize (.response status text lines) =
          .error { message := "API 返回错误状态码: " ++ toString status,
                   status_code := some (status : Int),
                   response_text := some ⟨text.data.take 500⟩ } from by simp [synthesize, h]] at hok
    cases hok

/-- C3 witness: a concrete 404 response with a 600-character body. -/
theorem C3_non200_witness :
    synthesize (.response 404 (String.mk (List.replicate 600 'x')) [StreamLine.blank]) =
      .error { message := "API 返回错误状态码: " ++ toString 404,
               status_code := some (404 : Int),
               response_text := some ⟨(String.mk (List.replicate 600 'x')).data.take 500⟩ } ∧
    (String.mk ((String.mk (List.replicate 600 'x')).data.take 500)).length ≤ 500 :=
  ⟨(C3_non200_fails 404 (String.mk (List.replicate 600 'x')) [StreamLine.blank] (by decide)).1,
   (C3_non200_fails 404 (String.mk (List.replicate 600 'x')) [StreamLine.blank] (by decide)).2.1⟩

/-- C4: on success `synthesize` returns exactly the concatenation, in stream
order, of the base64-decoded `data` fragments of the parsed lines, and that
byte sequence is non-empty; a stream that completes with zero accumulated
bytes yields the empty-audio error instead of success. -/
theorem C4_audio_concat (text : String) (lines : List StreamLine) (audio : List Nat) :
    (synthesize (.response 200 text lines) = .ok audio →
       audio = streamFragments lines ∧ audio ≠ []) ∧
    (runLines [] lines = .ok [] →
       synthesize (.response 200 text lines) = .error { message := "API 返回了空的音频数据" }) := by
  constructor
  · intro h
    rw [synthesize_200 text lines] at h
    rcases hr : runLines [] lines with e | out
    · rw [hr] at h
      replace h : (Except.error e : Except TTSError (List Nat)) = .ok audio := h
      cases h
    · rw [hr] at h
      replace h : (if out = [] then
          (Except.error { message := "API 返回了空的音频数据" } : Except TTSError (List Nat))
          else .ok out) = .ok audio := h
      by_cases hout : out = []
      · rw [if_pos hout] at h; cases h
      · rw [if_neg hout] at h
        cases h
        exact ⟨by simpa using runLines_ok_concat lines [] audio hr, hout⟩
  · intro h
    rw [synthesize_200 text lines, h]
    rfl

/-- C4 witness: a concrete stream whose two fragments decode to
`"hello"` and `[255]`, and the degenerate empty stream. -/
theorem C4_audio_concat_witness :
    ([104, 101, 108, 108, 111, 255] : List Nat) =
        streamFragments [StreamLine.json (some "aGVsbG8=") none "", .blank,
          .json (some "/w==") (some 20000000) ""] ∧
    ([104, 101, 108, 108, 111, 255] : List Nat) ≠ [] ∧
    synthesize (.response 200 "" ([] : List StreamLine)) =
      .error { message := "API 返回了空的音频数据" } := by
  have h1 := (C4_audio_concat "" [StreamLine.json (some "aGVsbG8=") none "", .blank,
      .json (some "/w==") (some 20000000) ""] [104, 101, 108, 108, 111, 255]).1 (by rfl)
  have h2 := (C4_audio_concat "" ([] : List StreamLine) []).2 (by rfl)
  exact ⟨h1.1, h1.2, h2⟩

/-- C6: every per-task outcome — success, any `TTSError` raised by the
Client's `synthesize`, or any other unexpected exception — is converted by
`run_task` into a `TTSResult` for that task's index (never propagating),
with exactly one of `audio`/`error` populated, `success` holding exactly when
`audio` is present, and a non-empty error message on failure (the generic
`未知错误` message for non-Client failures). -/
theorem C6_error_conversion (behavior : TTSTask → TaskExec) (task : TTSTask) :
    (run_task behavior task).index = task.index ∧
    (run_task behavior task).text = task.text ∧
    ((run_task behavior task).audio.isSome ↔ (run_task behavior task).error = none) ∧
    ((run_task behavior task).success = true ↔ (run_task behavior task).audio.isSome) ∧
    (∀ m, (run_task behavior task).error = some m → m ≠ "") := by
  rcases hb : behavior task with resp | msg
  · rcases hs : synthesize resp with e | audio
    · refine ⟨by simp [run_task, hb, hs], by simp [run_task, hb, hs],
        by simp [run_task, hb, hs], by simp [run_task, hb, hs, TTSResult.success], ?_⟩
      intro m hm
      simp only [run_task, hb, hs, Option.some.injEq] at hm
      exact hm ▸ synthesize_error_message resp e hs
    · exact ⟨by simp [run_task, hb, hs], by simp [run_task, hb, hs],
        by simp [run_task, hb, hs], by simp [run_task, hb, hs, TTSResult.success],
        by simp [run_task, hb, hs]⟩
  · refine ⟨by simp [run_task, hb], by simp [run_task, hb],
      by simp [run_task, hb], by simp [run_task, hb, TTSResult.success], ?_⟩
    intro m hm
    simp only [run_task, hb, Option.some.injEq] at hm
    subst hm
    exact append_ne_empty "未知错误: " msg (by decide)

/-- C6 witness: a task whose execution raises a non-`TTSError` exception
yields the generic unknown-error result. -/
theorem C6_error_conversion_witness :
    ("未知错误: boom" : String) ≠ "" :=
  (C6_error_conversion (fun _ => TaskExec.raises "boom") ⟨3, "t", "v", none, none⟩).2.2.2.2
    "未知错误: boom" rfl

/-- C5: in the request body built by `synthesize`, the `additions` field of
`req_params` is present iff at least one of `context_texts`/`section_id` is
truthy (present and non-empty); when present it is the JSON-encoded string of
the dict containing `context_texts` (iff `context_texts` is non-empty)
followed by `section_id` (iff `section_id` is non-empty); when both inputs
are absent or empty the field is absent. -/
theorem C5_additions_present_iff (text voice_type : String)
    (context_texts : Option (List String)) (section_id : Option String) :
    ((buildPayload text voice_type context_texts section_id).req_params.additions.isSome ↔
       (context_texts.getD [] ≠ [] ∨ section_id.getD "" ≠ "")) ∧
    ((buildPayload text voice_type context_texts section_id).req_params.additions =
       if context_texts.getD [] ≠ [] ∨ section_id.getD "" ≠ "" then
         some (jsonDumpsObj (additionsDict context_texts section_id))
       else none) ∧
    (additionsDict context_texts section_id =
       (if context_texts.getD [] ≠ [] then
          [("context_texts", JVal.arr (context_texts.getD []))] else []) ++
       (if section_id.getD "" ≠ "" then
          [("section_id", JVal.str (section_id.getD ""))] else [])) := by
  rcases context_texts with _ | l
  · rcases section_id with _ | s
    · simp [buildPayload, additionsDict]
    · by_cases hs : s = "" <;> simp [buildPayload, additionsDict, hs]
  · rcases section_id with _ | s
    · by_cases hl : l = [] <;> simp [buildPayload, additionsDict, hl]
    · by_cases hl : l = [] <;> by_cases hs : s = "" <;>
        simp [buildPayload, additionsDict, hl, hs]

/-! ## Helper lemmas: the batch dispatcher -/

lemma run_task_index (behavior : TTSTask → TaskExec) (t : TTSTask) :
    (run_task behavior t).index = t.index := by
  rcases hb : behavior t with resp | msg
  · simp only [run_task, hb]
    rcases synthesize resp with e | a <;> rfl
  · simp [run_task, hb]

lemma dictLookup_insert (k : Nat) (v : TTSResult) :
    ∀ (d : ResultDict) (k' : Nat),
      dictLookup (dictInsert d k v) k' = if k' = k then some v else dictLookup d k' := by
  intro d
  induction d with
  | nil =>
    intro k'
    by_cases h : k' = k
    · subst h
      simp [dictInsert, dictLookup, List.find?]
    · have hb : (k == k') = false := beq_eq_false_iff_ne.mpr (Ne.symm h)
      simp [dictInsert, dictLookup, List.find?, hb, h]
  | cons p rest ih =>
    intro k'
    rcases p with ⟨a, w⟩
    simp only [dictInsert]
    by_cases hak : a = k
    · subst hak
      rw [if_pos rfl]
      by_cases h : k' = a
      · subst h
        simp [dictLookup, List.find?]
      · have hb : (a == k') = false := beq_eq_false_iff_ne.mpr (fun hk => h hk.symm)
        simp [dictLookup, List.find?, hb, h]
    · rw [if_neg hak]
      by_cases h : k' = a
      · have hb : (a == k') = true := beq_iff_eq.mpr h.symm
        have hne : ¬ k' = k := fun hkk => hak (h.symm.trans hkk)
        simp [dictLookup, List.find?, hb, hne]
      · have hb : (a == k') = false := beq_eq_false_iff_ne.mpr (fun hk => h hk.symm)
        have hthis := ih k'
        simp only [dictLookup, List.find?, hb] at hthis ⊢
        exact hthis

lemma dictKeys_insert (k : Nat) (v : TTSResult) :
    ∀ (d : ResultDict),
      dictKeys (dictInsert d k v) =
        if k ∈ dictKeys d then dictKeys d else dictKeys d ++ [k] := by
  intro d
  induction d with
  | nil => simp [dictInsert, dictKeys]
  | cons p rest ih =>
    rcases p with ⟨a, w⟩
    simp only [dictInsert]
    by_cases hak : a = k
    · subst hak
      rw [if_pos rfl, if_pos (show a ∈ dictKeys ((a, w) :: rest) from List.mem_cons_self a _)]
      rfl
    · rw [if_neg hak]
      have hka : ¬ k = a := fun h => hak h.symm
      show a :: dictKeys (dictInsert rest k v) = _
      rw [ih]
      by_cases hmem : k ∈ dictKeys rest
      · rw [if_pos hmem,
          if_pos (show k ∈ dictKeys ((a, w) :: rest) from List.mem_cons.mpr (Or.inr hmem))]
        rfl
      · rw [if_neg hmem, if_neg (show k ∉ dictKeys ((a, w) :: rest) from by
          intro hk
          rcases List.mem_cons.mp hk with hk | hk
          · exact hka hk
          · exact hmem hk)]
        rfl

lemma mem_dictKeys_insert (d : ResultDict) (k : Nat) (v : TTSResult) (k' : Nat) :
    k' ∈ dictKeys (dictInsert d k v) ↔ k' = k ∨ k' ∈ dictKeys d := by
  rw [dictKeys_insert]
  by_cases hmem : k ∈ dictKeys d
  · rw [if_pos hmem]
    constructor
    · exact Or.inr
    · rintro (rfl | h)
      · exact hmem
      · exact h
  · rw [if_neg hmem]
    simp [List.mem_append, or_comm]

lemma nodup_dictKeys_insert (d : ResultDict) (k : Nat) (v : TTSResult)
    (h : (dictKeys d).Nodup) : (dictKeys (dictInsert d k v)).Nodup := by
  rw [dictKeys_insert]
  by_cases hmem : k ∈ dictKeys d
  · rw [if_pos hmem]; exact h
  · rw [if_neg hmem]
    simp [List.nodup_append, h, hmem]

lemma buildDict_foldl_lookup (behavior : TTSTask → TaskExec) :
    ∀ (order : List TTSTask) (d : ResultDict) (k : Nat),
      dictLookup
          (order.foldl (fun d t => let r := run_task behavior t; dictInsert d r.index r) d) k =
        ((order.reverse.find? (fun t => t.index == k)).map (run_task behavior)).or
          (dictLookup d k) := by
  intro order
  induction order with
  | nil => intro d k; simp
  | cons t ts ih =>
    intro d k
    simp only [List.foldl_cons, List.reverse_cons, List.find?_append]
    rw [ih]
    rcases hf : ts.reverse.find? (fun t => t.index == k) with _ | u
    · rw [hf]
      simp only [Option.map_none, Option.none_or, List.find?_singleton]
      rw [dictLookup_insert, run_task_index]
      by_cases hk : k = t.index
      · have hb : (t.index == k) = true := beq_iff_eq.mpr hk.symm
        simp [hb, hk]
      · have hb : (t.index == k) = false := beq_eq_false_iff_ne.mpr (fun h => hk h.symm)
        simp [hb, hk]
    · rw [hf]
      simp

lemma buildDict_lookup (behavior : TTSTask → TaskExec) (order : List TTSTask) (k : Nat) :
    dictLookup (buildDict behavior order) k =
      (order.reverse.find? (fun t => t.index == k)).map (run_task behavior) := by
  have h := buildDict_foldl_lookup behavior order [] k
  simpa [buildDict, dictLookup] using h

lemma buildDict_foldl_keys_nodup (behavior : TTSTask → TaskExec) :
    ∀ (order : List TTSTask) (d : ResultDict), (dictKeys d).Nodup →
      (dictKeys
        (order.foldl (fun d t => let r := run_task behavior t; dictInsert d r.index r) d)).Nodup := by
  intro order
  induction order with
  | nil => intro d h; exact h
  | cons t ts ih =>
    intro d h
    simp only [List.foldl_cons]
    exact ih _ (nodup_dictKeys_insert d _ _ h)

lemma buildDict_keys_nodup (behavior : TTSTask → TaskExec) (order : List TTSTask) :
    (dictKeys (buildDict behavior order)).Nodup :=
  buildDict_foldl_keys_nodup behavior order [] (by simp [dictKeys])

lemma mem_buildDict_foldl_keys (behavior : TTSTask → TaskExec) :
    ∀ (order : List TTSTask) (d : ResultDict) (k : Nat),
      k ∈ dictKeys
          (order.foldl (fun d t => let r := run_task behavior t; dictInsert d r.index r) d) ↔
        k ∈ dictKeys d ∨ ∃ t ∈ order, t.index = k := by
  intro order
  induction order with
  | nil => intro d k; simp
  | cons t ts ih =>
    intro d k
    simp only [List.foldl_cons]
    rw [ih]
    rw [mem_dictKeys_insert, run_task_index]
    constructor
    · rintro ((rfl | h) | ⟨u, hu, hk⟩)
      · exact Or.inr ⟨t, List.mem_cons_self t ts, rfl⟩
      · exact Or.inl h
      · exact Or.inr ⟨u, List.mem_cons_of_mem t hu, hk⟩
    · rintro (h | ⟨u, hu, hk⟩)
      · exact Or.inl (Or.inr h)
      · rcases List.mem_cons.mp hu with rfl | hu'
        · exact Or.inl (Or.inl hk.symm)
        · exact Or.inr ⟨u, hu', hk⟩

lemma mem_buildDict_keys (behavior : TTSTask → TaskExec) (order : List TTSTask) (k : Nat) :
    k ∈ dictKeys (buildDict behavior order) ↔ ∃ t ∈ order, t.index = k := by
  have h := mem_buildDict_foldl_keys behavior order [] k
  simpa [buildDict, dictKeys] using h

lemma process_def (behavior : TTSTask → TaskExec) (order : List TTSTask) :
    process behavior order =
      (List.insertionSort (· ≤ ·) (dictKeys (buildDict behavior order))).filterMap
        (dictLookup (buildDict behavior order)) := rfl

lemma filterMap_eq_map_of_forall_some {α β : Type} (f : α → Option β) (g : α → β) :
    ∀ (l : List α), (∀ x ∈ l, f x = some (g x)) → l.filterMap f = l.map g := by
  intro l
  induction l with
  | nil => intro _; rfl
  | cons x xs ih =>
    intro h
    rw [List.filterMap_cons, h x (List.mem_cons_self x xs), List.map_cons,
      ih (fun y hy => h y (List.mem_cons_of_mem x hy))]

lemma find?_index_isSome (order : List TTSTask) (k : Nat)
    (h : ∃ t ∈ order, t.index = k) :
    ∃ u, order.reverse.find? (fun t => t.index == k) = some u := by
  rcases h with ⟨t, ht, hk⟩
  have : ∃ x, x ∈ order.reverse ∧ (x.index == k) = true :=
    ⟨t, List.mem_reverse.mpr ht, by simp [hk]⟩
  rcases hf : order.reverse.find? (fun t => t.index == k) with _ | u
  · rw [List.find?_eq_none] at hf
    rcases this with ⟨x, hx, hpx⟩
    exact absurd hpx (by simpa using hf x hx)
  · exact ⟨u, hf⟩

lemma lookup_eq_resAt (behavior : TTSTask → TaskExec) (order : List TTSTask) (k : Nat)
    (h : ∃ t ∈ order, t.index = k) :
    dictLookup (buildDict behavior order) k = some (resAt behavior order k) := by
  rcases find?_index_isSome order k h with ⟨u, hu⟩
  rw [buildDict_lookup, hu]
  unfold resAt
  rw [hu]
  rfl

lemma resAt_index (behavior : TTSTask → TaskExec) (order : List TTSTask) (k : Nat)
    (h : ∃ t ∈ order, t.index = k) :
    (resAt behavior order k).index = k := by
  rcases find?_index_isSome order k h with ⟨u, hu⟩
  have hp := List.find?_some hu
  have hp' : (u.index == k) = true := hp
  unfold resAt
  rw [hu]
  show (run_task behavior u).index = k
  rw [run_task_index]
  exact beq_iff_eq.mp hp'

lemma process_eq_map (behavior : TTSTask → TaskExec) (order : List TTSTask) :
    process behavior order =
      (List.insertionSort (· ≤ ·) (dictKeys (buildDict behavior order))).map
        (resAt behavior order) := by
  rw [process_def]
  apply filterMap_eq_map_of_forall_some
  intro k hk
  have hmem : k ∈ dictKeys (buildDict behavior order) :=
    (List.perm_insertionSort (· ≤ ·) (dictKeys (buildDict behavior order))).subset hk
  exact lookup_eq_resAt behavior order k ((mem_buildDict_keys behavior order k).mp hmem)

lemma process_map_index (behavior : TTSTask → TaskExec) (order : List TTSTask) :
    (process behavior order).map (·.index) =
      List.insertionSort (· ≤ ·) (dictKeys (buildDict behavior order)) := by
  rw [process_eq_map, List.map_map]
  have h : ∀ k ∈ List.insertionSort (· ≤ ·) (dictKeys (buildDict behavior order)),
      ((fun r => r.index) ∘ resAt behavior order) k = id k := by
    intro k hk
    have hmem : k ∈ dictKeys (buildDict behavior order) :=
      (List.perm_insertionSort (· ≤ ·) (dictKeys (buildDict behavior order))).subset hk
    exact resAt_index behavior order k ((mem_buildDict_keys behavior order k).mp hmem)
  rw [List.map_congr_left h, List.map_id]

/-! ## Claim theorems for the batch dispatcher -/

/-- C1: for a batch of N tasks with dense 0-based indices, whatever completion
order the scheduler produces, `process` returns exactly N results with
`result[i].index = i` (hence sorted ascending by index), and `on_result`
fires exactly once per task — N invocations, with the multiset of callback
arguments being exactly the per-task results (zero invocations and an empty
result list for N = 0, since then both lists have length 0). -/
theorem C1_process_dense (behavior : TTSTask → TaskExec) (tasks order : List TTSTask) (N : Nat)
    (hdense : tasks.map (·.index) = List.range N)
    (hperm : order.Perm tasks) :
    (process behavior order).length = N ∧
    (∀ i, ∀ h : i < (process behavior order).length,
        ((process behavior order).get ⟨i, h⟩).index = i) ∧
    (callbackCalls behavior order).length = N ∧
    (callbackCalls behavior order).Perm (tasks.map (run_task behavior)) := by
  have hmemkeys : ∀ k, k ∈ dictKeys (buildDict behavior order) ↔ k ∈ List.range N := by
    intro k
    rw [mem_buildDict_keys, ← hdense, List.mem_map]
    constructor
    · rintro ⟨t, ht, hk⟩; exact ⟨t, hperm.subset ht, hk⟩
    · rintro ⟨t, ht, hk⟩; exact ⟨t, hperm.symm.subset ht, hk⟩
  have hkeysperm : (dictKeys (buildDict behavior order)).Perm (List.range N) :=
    (List.perm_ext_iff_of_nodup (buildDict_keys_nodup behavior order)
      (List.nodup_range N)).mpr hmemkeys
  have hsortrange : List.Sorted (· ≤ ·) (List.range N) :=
    (List.pairwise_lt_range N).imp (fun h => le_of_lt h)
  have hsorted : List.insertionSort (· ≤ ·) (dictKeys (buildDict behavior order)) =
      List.range N :=
    List.eq_of_perm_of_sorted ((List.perm_insertionSort (· ≤ ·) _).trans hkeysperm)
      (List.sorted_insertionSort (· ≤ ·) _) hsortrange
  have hproc : process behavior order = (List.range N).map (resAt behavior order) := by
    rw [process_eq_map, hsorted]
  have hlen : (process behavior order).length = N := by
    rw [hproc, List.length_map, List.length_range]
  have htaskslen : tasks.length = N := by
    have := congrArg List.length hdense
    simpa using this
  refine ⟨hlen, ?_, ?_, hperm.map (run_task behavior)⟩
  · intro i h
    have hi : i < N := hlen ▸ h
    have h' : i < ((List.range N).map (resAt behavior order)).length := by
      rw [← hproc]; exact h
    rw [List.get_of_eq hproc]
    have hex : ∃ t ∈ order, t.index = i :=
      (mem_buildDict_keys behavior order i).mp
        ((hmemkeys i).mpr (List.mem_range.mpr hi))
    simpa using resAt_index behavior order i hex
  · simp [callbackCalls, hperm.length_eq, htaskslen]

/-- C1 witness: two dense-indexed tasks completed in reverse order. -/
theorem C1_process_dense_witness :
    (process (fun _ => TaskExec.raises "x")
        [⟨1, "b", "v", none, none⟩, ⟨0, "a", "v", none, none⟩]).length = 2 :=
  (C1_process_dense (fun _ => TaskExec.raises "x")
    [⟨0, "a", "v", none, none⟩, ⟨1, "b", "v", none, none⟩]
    [⟨1, "b", "v", none, none⟩, ⟨0, "a", "v", none, none⟩] 2
    (by decide) (by decide)).1

/-- C7 counterexample: two tasks sharing index 0 with different texts; the two
completion orders are permutations of the same task list with the same
per-task outcomes, yet `process` returns different final lists (the
accumulator keeps the last completion per index). -/
theorem C7_completion_order_counterexample :
    ([⟨0, "b", "v", none, none⟩, ⟨0, "a", "v", none, none⟩] : List TTSTask).Perm
        [⟨0, "a", "v", none, none⟩, ⟨0, "b", "v", none, none⟩] ∧
    process (fun _ => TaskExec.raises "x")
        [⟨0, "a", "v", none, none⟩, ⟨0, "b", "v", none, none⟩] ≠
      process (fun _ => TaskExec.raises "x")
        [⟨0, "b", "v", none, none⟩, ⟨0, "a", "v", none, none⟩] := by
  refine ⟨List.Perm.swap _ _ _, ?_⟩
  decide

/-- C7 (amended): provided the task indices are all distinct, `process`
returns the same final sorted result list for every completion order of the
same task list with the same per-task outcomes. -/
theorem C7_completion_order_amended (behavior : TTSTask → TaskExec)
    (tasks order1 order2 : List TTSTask)
    (hnodup : (tasks.map (·.index)).Nodup)
    (h1 : order1.Perm tasks) (h2 : order2.Perm tasks) :
    process behavior order1 = process behavior order2 := by
  have hmem : ∀ k, k ∈ dictKeys (buildDict behavior order1) ↔
      k ∈ dictKeys (buildDict behavior order2) := by
    intro k
    rw [mem_buildDict_keys, mem_buildDict_keys]
    constructor
    · rintro ⟨t, ht, hk⟩; exact ⟨t, h2.symm.subset (h1.subset ht), hk⟩
    · rintro ⟨t, ht, hk⟩; exact ⟨t, h1.symm.subset (h2.subset ht), hk⟩
  have hkeysperm : (dictKeys (buildDict behavior order1)).Perm
      (dictKeys (buildDict behavior order2)) :=
    (List.perm_ext_iff_of_nodup (buildDict_keys_nodup _ _)
      (buildDict_keys_nodup _ _)).mpr hmem
  have hsortedeq : List.insertionSort (· ≤ ·) (dictKeys (buildDict behavior order1)) =
      List.insertionSort (· ≤ ·) (dictKeys (buildDict behavior order2)) :=
    List.eq_of_perm_of_sorted
      ((List.perm_insertionSort _ _).trans
        (hkeysperm.trans (List.perm_insertionSort _ _).symm))
      (List.sorted_insertionSort _ _) (List.sorted_insertionSort _ _)
  rw [process_eq_map, process_eq_map, hsortedeq]
  apply List.map_congr_left
  intro k hk
  have hex : ∃ t ∈ tasks, t.index = k := by
    have hmem2 : k ∈ dictKeys (buildDict behavior order2) :=
      (List.perm_insertionSort _ _).subset hk
    rcases (mem_buildDict_keys behavior order2 k).mp hmem2 with ⟨t, ht, hkt⟩
    exact ⟨t, h2.subset ht, hkt⟩
  rcases find?_index_isSome order1 k
      (by rcases hex with ⟨t, ht, hk'⟩; exact ⟨t, h1.symm.subset ht, hk'⟩) with ⟨u1, hu1⟩
  rcases find?_index_isSome order2 k
      (by rcases hex with ⟨t, ht, hk'⟩; exact ⟨t, h2.symm.subset ht, hk'⟩) with ⟨u2, hu2⟩
  have hu1mem : u1 ∈ tasks := h1.subset (List.mem_reverse.mp (List.mem_of_find?_eq_some hu1))
  have hu2mem : u2 ∈ tasks := h2.subset (List.mem_reverse.mp (List.mem_of_find?_eq_some hu2))
  have hp1' := List.find?_some hu1
  have hp1 : (u1.index == k) = true := hp1'
  have hp2' := List.find?_some hu2
  have hp2 : (u2.index == k) = true := hp2'
  have hueq : u1 = u2 :=
    List.inj_on_of_nodup_map hnodup hu1mem hu2mem
      ((beq_iff_eq.mp hp1).trans (beq_iff_eq.mp hp2).symm)
  unfold resAt
  rw [hu1, hu2, hueq]

/-- C7 witness: two distinct-index tasks completed in either order give the
same final list. -/
theorem C7_completion_order_witness :
    process (fun _ => TaskExec.raises "x")
        [⟨1, "b", "v", none, none⟩, ⟨0, "a", "v", none, none⟩] =
      process (fun _ => TaskExec.raises "x")
        [⟨0, "a", "v", none, none⟩, ⟨1, "b", "v", none, none⟩] :=
  C7_completion_order_amended (fun _ => TaskExec.raises "x")
    [⟨0, "a", "v", none, none⟩, ⟨1, "b", "v", none, none⟩]
    [⟨1, "b", "v", none, none⟩, ⟨0, "a", "v", none, none⟩]
    [⟨0, "a", "v", none, none⟩, ⟨1, "b", "v", none, none⟩]
    (by decide) (by decide) (by decide)

/-- C10: when the submitted tasks' indices are not all distinct, the
index-keyed accumulator keeps only the most recently completed result per
index: the returned list has strictly fewer entries than tasks, exactly one
entry per distinct index (its index list is duplicate-free, sorted ascending,
and covers exactly the submitted indices), and every returned entry is the
`run_task` result of the last-completed task bearing that index. -/
theorem C10_duplicate_indices (behavior : TTSTask → TaskExec) (order : List TTSTask)
    (hdup : ¬ (order.map (·.index)).Nodup) :
    (process behavior order).length < order.length ∧
    ((process behavior order).map (·.index)).Nodup ∧
    List.Sorted (· ≤ ·) ((process behavior order).map (·.index)) ∧
    (∀ k, k ∈ (process behavior order).map (·.index) ↔ ∃ t ∈ order, t.index = k) ∧
    (∀ r ∈ process behavior order,
       (order.reverse.find? (fun t => t.index == r.index)).map (run_task behavior) = some r) := by
  have hmapidx := process_map_index behavior order
  have hkeysnodup := buildDict_keys_nodup behavior order
  have hsortnodup : (List.insertionSort (· ≤ ·)
      (dictKeys (buildDict behavior order))).Nodup :=
    ((List.perm_insertionSort (· ≤ ·) _).nodup_iff).mpr hkeysnodup
  have hmemdedup : ∀ k, k ∈ dictKeys (buildDict behavior order) ↔
      k ∈ (order.map (·.index)).dedup := by
    intro k
    rw [mem_buildDict_keys, List.mem_dedup, List.mem_map]
  have hkeysperm : (dictKeys (buildDict behavior order)).Perm
      (order.map (·.index)).dedup :=
    (List.perm_ext_iff_of_nodup hkeysnodup (List.nodup_dedup _)).mpr hmemdedup
  have hlt : (order.map (·.index)).dedup.length < (order.map (·.index)).length := by
    have hsub := List.dedup_sublist (order.map (·.index))
    rcases Nat.lt_or_ge (order.map (·.index)).dedup.length
        (order.map (·.index)).length with h | h
    · exact h
    · exfalso
      have heq : (order.map (·.index)).dedup.length = (order.map (·.index)).length :=
        le_antisymm hsub.length_le h
      exact hdup (List.dedup_eq_self.mp (hsub.eq_of_length heq))
  refine ⟨?_, ?_, ?_, ?_, ?_⟩
  · have h1 : (process behavior order).length =
        (dictKeys (buildDict behavior order)).length := by
      rw [process_eq_map, List.length_map, (List.perm_insertionSort (· ≤ ·) _).length_eq]
    rw [h1, hkeysperm.length_eq]
    calc (order.map (·.index)).dedup.length
        < (order.map (·.index)).length := hlt
      _ = order.length := List.length_map _ _
  · rw [hmapidx]; exact hsortnodup
  · rw [hmapidx]; exact List.sorted_insertionSort _ _
  · intro k
    rw [hmapidx]
    constructor
    · intro hk
      exact (mem_buildDict_keys behavior order k).mp
        ((List.perm_insertionSort (· ≤ ·) _).subset hk)
    · intro hk
      have : k ∈ dictKeys (buildDict behavior order) :=
        (mem_buildDict_keys behavior order k).mpr hk
      exact ((List.perm_insertionSort (· ≤ ·) _).mem_iff).mpr this
  · intro r hr
    rw [process_eq_map] at hr
    rcases List.mem_map.mp hr with ⟨k, hk, hrk⟩
    have hexk : ∃ t ∈ order, t.index = k :=
      (mem_buildDict_keys behavior order k).mp
        ((List.perm_insertionSort (· ≤ ·) _).subset hk)
    have hidx : r.index = k := by rw [← hrk]; exact resAt_index behavior order k hexk
    rcases find?_index_isSome order k hexk with ⟨u, hu⟩
    unfold resAt at hrk
    rw [hu] at hrk
    have hrk' : run_task behavior u = r := hrk
    rw [hidx, hu]
    show some (run_task behavior u) = some r
    rw [hrk']

/-- C10 witness: three tasks with a duplicated index 0 produce two results. -/
theorem C10_duplicate_indices_witness :
    (process (fun _ => TaskExec.raises "x")
        [⟨0, "a", "v", none, none⟩, ⟨0, "b", "v", none, none⟩,
         ⟨1, "c", "v", none, none⟩]).length < 3 :=
  (C10_duplicate_indices (fun _ => TaskExec.raises "x")
    [⟨0, "a", "v", none, none⟩, ⟨0, "b", "v", none, none⟩,
     ⟨1, "c", "v", none, none⟩] (by decide)).1

end TTS
